import Mathlib

/-!
Verification of the api-key-server repository.

The repository has two variants of the same service:

* `src/lib.rs` — axum handlers (`create_key`, `list_keys`, `delete_key`,
  `regenerate_key`, `lookup_key`) written against a `StorageAdapter` trait,
  shipped with an `InMemoryStorage` adapter (a `HashMap<String, Vec<ApiKey>>`
  behind a mutex) and a `UuidSecretGenerator`;
* `src/main.rs` — standalone handlers operating directly on the
  `HashMap<String, Vec<ApiKey>>`.

We embed both shallowly.  The mutex-guarded `HashMap<String, Vec<ApiKey>>` is
modelled as an association list from tenant id to the tenant's vector of keys
(`Store`); each async handler becomes a pure state-passing function
`Store → ... → Store × Response`.  `Uuid::new_v4()` and the secret generator
are nondeterministic at the Rust level, so every generated id/secret is an
explicit parameter of the embedded function.  `Uuid` values are modelled as
their string rendering, which is faithful because the code only ever compares
them for equality.
-/

/-- `ApiKey` from the source: `id: Uuid`, `name: String`, `secret: String`. -/
structure ApiKey where
  id : String
  name : String
  secret : String
deriving DecidableEq, Repr

/-- `ProtectedApiKey` from the source: the projection of `ApiKey` that has no
`secret` field at all. -/
structure ProtectedApiKey where
  id : String
  name : String
deriving DecidableEq, Repr

/-- `StorageError` from `src/lib.rs`. -/
inductive StorageError where
  | NotFound : StorageError
  | InternalError : String → StorageError
deriving DecidableEq, Repr

/-- The guarded `HashMap<String, Vec<ApiKey>>`, as an association list from
tenant id (the token's `sub` claim) to that tenant's vector of keys. -/
abbrev Store := List (String × List ApiKey)

/-- `keys.get(user_id)` on the hash map: the partition of a tenant, if present. -/
def getTenant (s : Store) (t : String) : Option (List ApiKey) :=
  match s.find? (fun e => e.fst == t) with
  | some e => some e.snd
  | none => none

/-- Store the given vector as the tenant's partition: replace the entry if the
tenant is present, insert a fresh entry otherwise.  This is the effect of
mutating through `entry(...)`/`get_mut(...)` on the hash map. -/
def setTenant (s : Store) (t : String) (ks : List ApiKey) : Store :=
  match s with
  | [] => [(t, ks)]
  | e :: rest => if e.fst == t then (t, ks) :: rest else e :: setTenant rest t ks

/-- `iter_mut().find(p)` followed by `*found = new`: replace the first element
satisfying `p` (if any) by `new`, leaving everything else in place. -/
def replaceFirst (p : ApiKey → Bool) (new : ApiKey) : List ApiKey → List ApiKey
  | [] => []
  | x :: xs => if p x then new :: xs else x :: replaceFirst p new xs

/-- The possible handler outcomes, abstracting the axum responses:
`keyFull` is `Json(api_key)` (200 with the secret), `keyList` is
`Json(Vec<ProtectedApiKey>)`, `protectedKey` is `Json(ProtectedApiKey)`,
`noContent` is 204, `notFound` is 404, and `internalError` is the 500 branch
(we carry the underlying `StorageError` instead of the formatted string). -/
inductive Response where
  | keyFull : ApiKey → Response
  | keyList : List ProtectedApiKey → Response
  | protectedKey : ProtectedApiKey → Response
  | noContent : Response
  | notFound : Response
  | internalError : StorageError → Response
deriving DecidableEq, Repr

/-! ## The `InMemoryStorage` adapter (`src/lib.rs`, `in_memory_storage`) -/

/-- `InMemoryStorage::create_key`: `keys.entry(user_id).or_insert_with(Vec::new).push(key)`. -/
def InMemoryStorage.create_key (s : Store) (user_id : String) (key : ApiKey) :
    Store × Except StorageError Unit :=
  (setTenant s user_id (((getTenant s user_id).getD []) ++ [key]), .ok ())

/-- `InMemoryStorage::list_keys`: `keys.get(user_id).cloned().unwrap_or_default()`. -/
def InMemoryStorage.list_keys (s : Store) (user_id : String) :
    Store × Except StorageError (List ApiKey) :=
  (s, .ok ((getTenant s user_id).getD []))

/-- `InMemoryStorage::delete_key`: `position(|key| key.id == key_id)` then
`user_keys.remove(index)`; `NotFound` when the id or the tenant is absent. -/
def InMemoryStorage.delete_key (s : Store) (user_id : String) (key_id : String) :
    Store × Except StorageError Unit :=
  match getTenant s user_id with
  | some user_keys =>
    match user_keys.findIdx? (fun key => key.id == key_id) with
    | some index => (setTenant s user_id (user_keys.eraseIdx index), .ok ())
    | none => (s, .error .NotFound)
  | none => (s, .error .NotFound)

/-- `InMemoryStorage::update_key`: `iter_mut().find(|k| k.id == key.id)` then
`*existing_key = key`; `NotFound` when the id or the tenant is absent. -/
def InMemoryStorage.update_key (s : Store) (user_id : String) (key : ApiKey) :
    Store × Except StorageError Unit :=
  match getTenant s user_id with
  | some user_keys =>
    match user_keys.find? (fun k => k.id == key.id) with
    | some _ =>
      (setTenant s user_id (replaceFirst (fun k => k.id == key.id) key user_keys), .ok ())
    | none => (s, .error .NotFound)
  | none => (s, .error .NotFound)

/-- `InMemoryStorage::lookup_key`:
`keys.get(user_id).and_then(|ks| ks.iter().find(|key| key.secret == secret)).cloned()`,
always wrapped in `Ok`. -/
def InMemoryStorage.lookup_key (s : Store) (user_id : String) (secret : String) :
    Store × Except StorageError (Option ApiKey) :=
  (s, .ok ((getTenant s user_id).bind
    (fun user_keys => user_keys.find? (fun key => key.secret == secret))))

/-! ## The `src/lib.rs` handlers, composed with `InMemoryStorage`

`gen_id` stands for `Uuid::new_v4()` and `gen_secret` for
`secret_generator.generate()` (the shipped `UuidSecretGenerator` also returns
`Uuid::new_v4().to_string()`); `sub` is `token_data.claims.sub`. -/

/-- Handler `create_key` of `src/lib.rs`. -/
def Lib.create_key (s : Store) (sub key_name gen_id gen_secret : String) :
    Store × Response :=
  let api_key : ApiKey := { id := gen_id, name := key_name, secret := gen_secret }
  match InMemoryStorage.create_key s sub api_key with
  | (s1, .ok _) => (s1, .keyFull api_key)
  | (s1, .error e) => (s1, .internalError e)

/-- Handler `list_keys` of `src/lib.rs`. -/
def Lib.list_keys (s : Store) (sub : String) : Store × Response :=
  match InMemoryStorage.list_keys s sub with
  | (s1, .ok user_keys) =>
    (s1, .keyList (user_keys.map (fun key => { id := key.id, name := key.name })))
  | (s1, .error e) => (s1, .internalError e)

/-- Handler `delete_key` of `src/lib.rs`. -/
def Lib.delete_key (s : Store) (sub id : String) : Store × Response :=
  match InMemoryStorage.delete_key s sub id with
  | (s1, .ok _) => (s1, .noContent)
  | (s1, .error .NotFound) => (s1, .notFound)
  | (s1, .error e) => (s1, .internalError e)

/-- Handler `regenerate_key` of `src/lib.rs`: list, find the id, replace the
secret, persist through `update_key`. -/
def Lib.regenerate_key (s : Store) (sub id gen_secret : String) : Store × Response :=
  match InMemoryStorage.list_keys s sub with
  | (s1, .ok user_keys) =>
    match user_keys.find? (fun key => key.id == id) with
    | some key =>
      let updated_key : ApiKey := { key with secret := gen_secret }
      match InMemoryStorage.update_key s1 sub updated_key with
      | (s2, .ok _) => (s2, .keyFull updated_key)
      | (s2, .error e) => (s2, .internalError e)
    | none => (s1, .notFound)
  | (s1, .error .NotFound) => (s1, .notFound)
  | (s1, .error e) => (s1, .internalError e)

/-- Handler `lookup_key` of `src/lib.rs`. -/
def Lib.lookup_key (s : Store) (sub secret : String) : Store × Response :=
  match InMemoryStorage.lookup_key s sub secret with
  | (s1, .ok (some key)) => (s1, .protectedKey { id := key.id, name := key.name })
  | (s1, .ok none) => (s1, .notFound)
  | (s1, .error e) => (s1, .internalError e)

/-! ## The `src/main.rs` handlers (direct map access) -/

/-- Handler `create_key` of `src/main.rs`. -/
def Main.create_key (s : Store) (sub key_name gen_id gen_secret : String) :
    Store × Response :=
  let api_key : ApiKey := { id := gen_id, name := key_name, secret := gen_secret }
  (setTenant s sub (((getTenant s sub).getD []) ++ [api_key]), .keyFull api_key)

/-- Handler `list_keys` of `src/main.rs`: note the `entry(...).or_insert(Vec::new())`,
which materialises an empty partition for an unknown tenant. -/
def Main.list_keys (s : Store) (sub : String) : Store × Response :=
  let user_keys := (getTenant s sub).getD []
  (setTenant s sub user_keys,
   .keyList (user_keys.map (fun key => { id := key.id, name := key.name })))

/-- Handler `delete_key` of `src/main.rs`. -/
def Main.delete_key (s : Store) (sub id : String) : Store × Response :=
  match getTenant s sub with
  | some user_keys =>
    match user_keys.findIdx? (fun key => key.id == id) with
    | some index => (setTenant s sub (user_keys.eraseIdx index), .noContent)
    | none => (s, .notFound)
  | none => (s, .notFound)

/-- Handler `regenerate_key` of `src/main.rs`: mutate the found key's secret in
place and return its clone. -/
def Main.regenerate_key (s : Store) (sub id gen_secret : String) : Store × Response :=
  match getTenant s sub with
  | some user_keys =>
    match user_keys.find? (fun key => key.id == id) with
    | some key =>
      let updated_key : ApiKey := { key with secret := gen_secret }
      (setTenant s sub (replaceFirst (fun k => k.id == id) updated_key user_keys),
       .keyFull updated_key)
    | none => (s, .notFound)
  | none => (s, .notFound)

/-- Handler `lookup_key` of `src/main.rs`. -/
def Main.lookup_key (s : Store) (sub secret : String) : Store × Response :=
  match getTenant s sub with
  | some user_keys =>
    match user_keys.find? (fun key => key.secret == secret) with
    | some key => (s, .protectedKey { id := key.id, name := key.name })
    | none => (s, .notFound)
  | none => (s, .notFound)

/-! ## Basic lemmas about the store -/

theorem getTenant_nil (t : String) : getTenant [] t = none := rfl

theorem getTenant_setTenant_self (s : Store) (t : String) (ks : List ApiKey) :
    getTenant (setTenant s t ks) t = some ks := by
  induction s with
  | nil => simp [getTenant, setTenant]
  | cons e rest ih =>
    by_cases h : e.fst = t
    · simp [setTenant, getTenant, h]
    · have hb : (e.fst == t) = false := by simpa using h
      simp only [setTenant, hb, if_false]
      simpa [getTenant, hb] using ih

theorem getTenant_setTenant_ne (s : Store) (t t' : String) (ks : List ApiKey)
    (h : t' ≠ t) : getTenant (setTenant s t ks) t' = getTenant s t' := by
  induction s with
  | nil => simp [getTenant, setTenant, List.find?, (by simpa using h.symm : (t == t') = false)]
  | cons e rest ih =>
    by_cases he : e.fst = t
    · have hb : (e.fst == t) = true := by simpa using he
      have hb' : (e.fst == t') = false := by
        rw [he]; simpa using (Ne.symm h)
      simp [setTenant, getTenant, hb, hb', List.find?,
        (by simpa using h.symm : (t == t') = false)]
    · have hb : (e.fst == t) = false := by simpa using he
      by_cases he' : e.fst = t'
      · simp [setTenant, getTenant, hb, List.find?, (by simpa using he' : (e.fst == t') = true)]
      · have hb' : (e.fst == t') = false := by simpa using he'
        simp only [setTenant, hb, if_false]
        simpa [getTenant, List.find?, hb'] using ih

theorem setTenant_eq_self (s : Store) (t : String) (ks : List ApiKey)
    (h : getTenant s t = some ks) : setTenant s t ks = s := by
  induction s with
  | nil => simp [getTenant] at h
  | cons e rest ih =>
    by_cases he : e.fst = t
    · have hb : (e.fst == t) = true := by simpa using he
      simp only [getTenant, List.find?, hb] at h
      obtain ⟨rfl⟩ : e.snd = ks := by simpa using h
      obtain ⟨a, b⟩ := e
      simp only [setTenant, hb, if_true]
      simp_all
    · have hb : (e.fst == t) = false := by simpa using he
      simp only [getTenant, List.find?, hb] at h
      have h' : getTenant rest t = some ks := by simpa [getTenant] using h
      simp [setTenant, hb, ih h']

/-- When a tenant's partition is nonempty through `getD`, the tenant is present. -/
theorem getTenant_eq_some_of_getD_ne_nil (s : Store) (t : String)
    (h : (getTenant s t).getD [] ≠ []) :
    getTenant s t = some ((getTenant s t).getD []) := by
  cases hg : getTenant s t with
  | none => simp [hg] at h
  | some ks => simp

/-! ## List helper lemmas -/

theorem findIdx?_start_shift {α : Type} (p : α → Bool) (l : List α) (i : Nat) :
    List.findIdx? p l i = (List.findIdx? p l 0).map (· + i) := by
  induction l generalizing i with
  | nil => simp
  | cons a l ih =>
    rw [List.findIdx?_cons, List.findIdx?_cons]
    by_cases hp : p a
    · simp [hp]
    · rw [if_neg (by simpa using hp), if_neg (by simpa using hp), ih (i + 1), ih 1]
      cases List.findIdx? p l 0 with
      | none => simp
      | some j => simp; omega

theorem findIdx?_eq_some_decomp {α : Type} (p : α → Bool) (l : List α) (i : Nat)
    (h : l.findIdx? p = some i) :
    ∃ l1 x l2, l = l1 ++ x :: l2 ∧ l1.length = i ∧ p x = true ∧
      (∀ y ∈ l1, p y = false) ∧ l.eraseIdx i = l1 ++ l2 := by
  induction l generalizing i with
  | nil => simp at h
  | cons a l ih =>
    rw [List.findIdx?_cons] at h
    by_cases hp : p a
    · rw [if_pos (by simpa using hp)] at h
      obtain rfl : i = 0 := by simpa using (Option.some_inj.mp h).symm
      exact ⟨[], a, l, rfl, rfl, by simpa using hp, by simp, by simp⟩
    · rw [if_neg (by simpa using hp), findIdx?_start_shift p l 1] at h
      obtain ⟨j, hj, rfl⟩ := Option.map_eq_some'.mp h
      obtain ⟨l1, x, l2, rfl, hlen, hx, hpre, her⟩ := ih j hj
      refine ⟨a :: l1, x, l2, rfl, by simp [hlen], hx, ?_, ?_⟩
      · intro y hy
        rcases List.mem_cons.mp hy with rfl | hy
        · simpa using hp
        · exact hpre y hy
      · rw [List.eraseIdx_cons_succ, her, List.cons_append]

theorem find?_eq_some_decomp {α : Type} (p : α → Bool) (l : List α) (k : α)
    (h : l.find? p = some k) :
    ∃ l1 l2, l = l1 ++ k :: l2 ∧ (∀ y ∈ l1, p y = false) := by
  induction l with
  | nil => simp at h
  | cons a l ih =>
    rw [List.find?_cons] at h
    by_cases hp : p a
    · obtain rfl : a = k := by
        have := h
        rw [(by simpa using hp : p a = true)] at this
        simpa using this
      exact ⟨[], l, rfl, by simp⟩
    · rw [(by simpa using hp : p a = false)] at h
      obtain ⟨l1, l2, rfl, hpre⟩ := ih h
      refine ⟨a :: l1, l2, rfl, ?_⟩
      intro y hy
      rcases List.mem_cons.mp hy with rfl | hy
      · simpa using hp
      · exact hpre y hy

theorem replaceFirst_append (p : ApiKey → Bool) (new k : ApiKey) (l1 l2 : List ApiKey)
    (hpre : ∀ y ∈ l1, p y = false) (hk : p k = true) :
    replaceFirst p new (l1 ++ k :: l2) = l1 ++ new :: l2 := by
  induction l1 with
  | nil => simp [replaceFirst, hk]
  | cons a l1 ih =>
    have ha : p a = false := hpre a (by simp)
    have ih' := ih (fun y hy => hpre y (by simp [hy]))
    simp [replaceFirst, ha, ih']

theorem map_replaceFirst {β : Type} (p : ApiKey → Bool) (new : ApiKey) (f : ApiKey → β)
    (l : List ApiKey) (h : ∀ x, p x = true → f x = f new) :
    (replaceFirst p new l).map f = l.map f := by
  induction l with
  | nil => rfl
  | cons a l ih =>
    by_cases hp : p a = true
    · simp [replaceFirst, hp, h a hp]
    · simp [replaceFirst, hp, ih]

/-! ## Canonical single-step forms

Both variants compute the same function of the caller's partition; these
canonical forms make that explicit and are proved equal to the handlers. -/

/-- Canonical form of key creation: append the new key to the caller's partition. -/
def createStep (s : Store) (t key_name gen_id gen_secret : String) : Store × Response :=
  (setTenant s t (((getTenant s t).getD []) ++ [⟨gen_id, key_name, gen_secret⟩]),
   .keyFull ⟨gen_id, key_name, gen_secret⟩)

/-- Canonical form of deletion: erase the first key of the caller's partition
with the given id, `notFound` when there is none. -/
def deleteStep (s : Store) (t id : String) : Store × Response :=
  match ((getTenant s t).getD []).findIdx? (fun key => key.id == id) with
  | some index => (setTenant s t (((getTenant s t).getD []).eraseIdx index), .noContent)
  | none => (s, .notFound)

/-- Canonical form of regeneration: replace the secret of the first key of the
caller's partition with the given id, `notFound` when there is none. -/
def regenStep (s : Store) (t id gen_secret : String) : Store × Response :=
  match ((getTenant s t).getD []).find? (fun key => key.id == id) with
  | some key =>
    (setTenant s t (replaceFirst (fun k => k.id == id) { key with secret := gen_secret }
      ((getTenant s t).getD [])),
     .keyFull { key with secret := gen_secret })
  | none => (s, .notFound)

/-- Canonical form of lookup: the protected view of the first key of the
caller's partition with the given secret, `notFound` when there is none. -/
def lookupStep (s : Store) (t secret : String) : Store × Response :=
  match ((getTenant s t).getD []).find? (fun key => key.secret == secret) with
  | some key => (s, .protectedKey { id := key.id, name := key.name })
  | none => (s, .notFound)

theorem lib_create_eq (s : Store) (t n gid gsec : String) :
    Lib.create_key s t n gid gsec = createStep s t n gid gsec := rfl

theorem main_create_eq (s : Store) (t n gid gsec : String) :
    Main.create_key s t n gid gsec = createStep s t n gid gsec := rfl

theorem lib_delete_eq (s : Store) (t id : String) :
    Lib.delete_key s t id = deleteStep s t id := by
  unfold Lib.delete_key InMemoryStorage.delete_key deleteStep
  cases hg : getTenant s t with
  | none => simp [hg]
  | some ks =>
    cases hf : ks.findIdx? (fun key => key.id == id) with
    | none => simp [hg, hf]
    | some i => simp [hg, hf]

theorem main_delete_eq (s : Store) (t id : String) :
    Main.delete_key s t id = deleteStep s t id := by
  unfold Main.delete_key deleteStep
  cases hg : getTenant s t with
  | none => simp [hg]
  | some ks =>
    cases hf : ks.findIdx? (fun key => key.id == id) with
    | none => simp [hg, hf]
    | some i => simp [hg, hf]

theorem main_regen_eq (s : Store) (t id gsec : String) :
    Main.regenerate_key s t id gsec = regenStep s t id gsec := by
  unfold Main.regenerate_key regenStep
  cases hg : getTenant s t with
  | none => simp [hg]
  | some ks =>
    cases hf : ks.find? (fun key => key.id == id) with
    | none => simp [hg, hf]
    | some k => simp [hg, hf]

theorem lib_regen_eq (s : Store) (t id gsec : String) :
    Lib.regenerate_key s t id gsec = regenStep s t id gsec := by
  unfold Lib.regenerate_key InMemoryStorage.list_keys regenStep
  cases hf : ((getTenant s t).getD []).find? (fun key => key.id == id) with
  | none => simp [hf]
  | some k =>
    have hkid : k.id = id := by simpa using List.find?_some hf
    have hne : (getTenant s t).getD [] ≠ [] := by
      intro hnil
      rw [hnil] at hf
      simp at hf
    have hg : getTenant s t = some ((getTenant s t).getD []) :=
      getTenant_eq_some_of_getD_ne_nil s t hne
    have hpeq : (fun x : ApiKey => x.id == ({ k with secret := gsec } : ApiKey).id)
        = (fun x : ApiKey => x.id == id) := by
      funext x
      show (x.id == k.id) = (x.id == id)
      rw [hkid]
    simp only [hf]
    unfold InMemoryStorage.update_key
    rw [hg]
    simp only [hpeq, hf, Option.getD_some]

theorem lib_lookup_eq (s : Store) (t sec : String) :
    Lib.lookup_key s t sec = lookupStep s t sec := by
  unfold Lib.lookup_key InMemoryStorage.lookup_key lookupStep
  cases hg : getTenant s t with
  | none => simp
  | some ks =>
    cases hf : ks.find? (fun key => key.secret == sec) with
    | none => simp [hf]
    | some k => simp [hf]

theorem main_lookup_eq (s : Store) (t sec : String) :
    Main.lookup_key s t sec = lookupStep s t sec := by
  unfold Main.lookup_key lookupStep
  cases hg : getTenant s t with
  | none => simp [hg]
  | some ks =>
    cases hf : ks.find? (fun key => key.secret == sec) with
    | none => simp [hg, hf]
    | some k => simp [hg, hf]

theorem lib_list_eq (s : Store) (t : String) :
    Lib.list_keys s t =
      (s, .keyList (((getTenant s t).getD []).map (fun key => ⟨key.id, key.name⟩))) := rfl

theorem main_list_eq (s : Store) (t : String) :
    Main.list_keys s t =
      (setTenant s t ((getTenant s t).getD []),
       .keyList (((getTenant s t).getD []).map (fun key => ⟨key.id, key.name⟩))) := rfl

/-! ## Frame and congruence helpers for the canonical steps -/

theorem createStep_fst (s : Store) (t n gid gsec : String) :
    (createStep s t n gid gsec).1
      = setTenant s t (((getTenant s t).getD []) ++ [⟨gid, n, gsec⟩]) := rfl

theorem deleteStep_fst (s : Store) (t id : String) :
    (deleteStep s t id).1 = s ∨ ∃ ks, (deleteStep s t id).1 = setTenant s t ks := by
  unfold deleteStep
  cases hf : ((getTenant s t).getD []).findIdx? (fun key => key.id == id) with
  | none => exact Or.inl rfl
  | some i => exact Or.inr ⟨_, rfl⟩

theorem regenStep_fst (s : Store) (t id gsec : String) :
    (regenStep s t id gsec).1 = s ∨ ∃ ks, (regenStep s t id gsec).1 = setTenant s t ks := by
  unfold regenStep
  cases hf : ((getTenant s t).getD []).find? (fun key => key.id == id) with
  | none => exact Or.inl rfl
  | some k => exact Or.inr ⟨_, rfl⟩

theorem lookupStep_fst (s : Store) (t sec : String) : (lookupStep s t sec).1 = s := by
  unfold lookupStep
  cases hf : ((getTenant s t).getD []).find? (fun key => key.secret == sec) with
  | none => rfl
  | some k => rfl

/-- A store that is either unchanged or only re-assigned at tenant `t2` keeps
every other tenant's partition. -/
theorem getTenant_of_unchanged_or_set (s x : Store) (t1 t2 : String) (hne : t1 ≠ t2)
    (h : x = s ∨ ∃ ks, x = setTenant s t2 ks) : getTenant x t1 = getTenant s t1 := by
  rcases h with rfl | ⟨ks, rfl⟩
  · rfl
  · exact getTenant_setTenant_ne s t2 t1 ks hne

theorem deleteStep_snd_congr (s s' : Store) (t id : String)
    (h : (getTenant s t).getD [] = (getTenant s' t).getD []) :
    (deleteStep s t id).2 = (deleteStep s' t id).2 := by
  unfold deleteStep
  rw [h]
  cases ((getTenant s' t).getD []).findIdx? (fun key => key.id == id) with
  | none => rfl
  | some i => rfl

theorem regenStep_snd_congr (s s' : Store) (t id gsec : String)
    (h : (getTenant s t).getD [] = (getTenant s' t).getD []) :
    (regenStep s t id gsec).2 = (regenStep s' t id gsec).2 := by
  unfold regenStep
  rw [h]
  cases ((getTenant s' t).getD []).find? (fun key => key.id == id) with
  | none => rfl
  | some k => rfl

theorem lookupStep_snd_congr (s s' : Store) (t sec : String)
    (h : (getTenant s t).getD [] = (getTenant s' t).getD []) :
    (lookupStep s t sec).2 = (lookupStep s' t sec).2 := by
  unfold lookupStep
  rw [h]
  cases ((getTenant s' t).getD []).find? (fun key => key.secret == sec) with
  | none => rfl
  | some k => rfl

/-- Re-assigning tenant `t1` does not change tenant `t2`'s partition view. -/
theorem getD_setTenant_ne (s : Store) (t1 t2 : String) (ks : List ApiKey) (hne : t1 ≠ t2) :
    (getTenant (setTenant s t1 ks) t2).getD [] = (getTenant s t2).getD [] := by
  rw [getTenant_setTenant_ne s t1 t2 ks (Ne.symm hne)]

/-- C7: Idempotence of read — `ListKeys(T)` twice with no intervening mutation
returns the same response (here: literally the same list, hence equal sets);
additionally the `lib.rs` list leaves the store untouched, so the second call
runs on the very same state. -/
theorem C7_list_read_idempotent (s : Store) (t : String) :
    (Lib.list_keys s t).1 = s ∧
    (Lib.list_keys (Lib.list_keys s t).1 t).2 = (Lib.list_keys s t).2 ∧
    (Main.list_keys (Main.list_keys s t).1 t).2 = (Main.list_keys s t).2 := by
  refine ⟨rfl, rfl, ?_⟩
  rw [main_list_eq s t]
  rw [main_list_eq]
  rw [getTenant_setTenant_self]
  rfl

/-- C8: `main.rs`'s `list_keys` is not read-only: on a tenant with no
partition it inserts an empty partition for that tenant while returning an
empty (successful) list; it changes no other tenant's partition, leaves the
store unchanged whenever the partition already exists, and the `lib.rs`
in-memory `list_keys` never changes the store at all. -/
theorem C8_main_list_inserts_empty_partition (s : Store) (t : String)
    (h : getTenant s t = none) :
    (Main.list_keys s t).1 = setTenant s t [] ∧
    getTenant (Main.list_keys s t).1 t = some [] ∧
    (Main.list_keys s t).2 = .keyList [] ∧
    (∀ t2, t2 ≠ t → getTenant (Main.list_keys s t).1 t2 = getTenant s t2) ∧
    (∀ s2 : Store, getTenant s2 t ≠ none → (Main.list_keys s2 t).1 = s2) ∧
    (∀ s2 : Store, (Lib.list_keys s2 t).1 = s2) := by
  refine ⟨?_, ?_, ?_, ?_, ?_, fun s2 => rfl⟩
  · rw [main_list_eq, h]
    rfl
  · rw [main_list_eq, h]
    exact getTenant_setTenant_self s t []
  · rw [main_list_eq, h]
    rfl
  · intro t2 hne
    rw [main_list_eq]
    exact getTenant_setTenant_ne s t t2 _ hne
  · intro s2 h2
    cases hg : getTenant s2 t with
    | none => exact absurd hg h2
    | some ks =>
      rw [main_list_eq, hg, Option.getD_some]
      exact setTenant_eq_self s2 t ks hg

/-- C8 witness: concrete evaluation on a store that has a partition for
tenant "a" but none for tenant "b". -/
theorem C8_main_list_inserts_empty_partition_witness :
    (Main.list_keys [("a", [⟨"i", "n", "s"⟩])] "b").1
        = setTenant [("a", [⟨"i", "n", "s"⟩])] "b" [] ∧
    getTenant (Main.list_keys [("a", [⟨"i", "n", "s"⟩])] "b").1 "b" = some [] ∧
    (Main.list_keys [("a", [⟨"i", "n", "s"⟩])] "b").2 = .keyList [] ∧
    (∀ t2, t2 ≠ "b" →
      getTenant (Main.list_keys [("a", [⟨"i", "n", "s"⟩])] "b").1 t2
        = getTenant [("a", [⟨"i", "n", "s"⟩])] t2) ∧
    (∀ s2 : Store, getTenant s2 "b" ≠ none → (Main.list_keys s2 "b").1 = s2) ∧
    (∀ s2 : Store, (Lib.list_keys s2 "b").1 = s2) :=
  C8_main_list_inserts_empty_partition [("a", [⟨"i", "n", "s"⟩])] "b" (by decide)

/-- C5: lookup-by-secret.  At the storage contract, the no-match case is the
normal non-error value `Ok(None)` — `lookup_key` always returns `Ok` of the
first key of the caller's partition whose secret matches.  At the handler,
a match yields the protected view (id and name only — the `ProtectedApiKey`
type has no secret field) of a matching key of the caller's partition, and
no match yields `NotFound`; the store is untouched. -/
theorem C5_lookup_contract (s : Store) (t sec : String) :
    (InMemoryStorage.lookup_key s t sec
      = (s, .ok (((getTenant s t).getD []).find? (fun key => key.secret == sec)))) ∧
    (∀ k, ((getTenant s t).getD []).find? (fun key => key.secret == sec) = some k →
      (Lib.lookup_key s t sec).2 = .protectedKey ⟨k.id, k.name⟩ ∧
      k ∈ (getTenant s t).getD [] ∧ k.secret = sec) ∧
    (((getTenant s t).getD []).find? (fun key => key.secret == sec) = none →
      (Lib.lookup_key s t sec).2 = .notFound) ∧
    (Lib.lookup_key s t sec).1 = s := by
  refine ⟨?_, ?_, ?_, ?_⟩
  · unfold InMemoryStorage.lookup_key
    cases hg : getTenant s t with
    | none => simp
    | some ks => simp
  · intro k hk
    rw [lib_lookup_eq]
    unfold lookupStep
    rw [hk]
    exact ⟨rfl, List.mem_of_find?_eq_some hk, by simpa using List.find?_some hk⟩
  · intro hnone
    rw [lib_lookup_eq]
    unfold lookupStep
    rw [hnone]
  · rw [lib_lookup_eq]
    exact lookupStep_fst s t sec

/-- C5 witness: concrete evaluation on a one-key store, for the matching
secret (the inner hypotheses are discharged at `"s1"`). -/
theorem C5_lookup_contract_witness :
    ((InMemoryStorage.lookup_key [("t", [⟨"i", "n", "s1"⟩])] "t" "s1"
      = ([("t", [⟨"i", "n", "s1"⟩])],
         .ok ((([⟨"i", "n", "s1"⟩] : List ApiKey)).find? (fun key => key.secret == "s1")))) ∧
    (∀ k, (([⟨"i", "n", "s1"⟩] : List ApiKey)).find? (fun key => key.secret == "s1") = some k →
      (Lib.lookup_key [("t", [⟨"i", "n", "s1"⟩])] "t" "s1").2 = .protectedKey ⟨k.id, k.name⟩ ∧
      k ∈ (getTenant [("t", [⟨"i", "n", "s1"⟩])] "t").getD [] ∧ k.secret = "s1") ∧
    ((([⟨"i", "n", "s1"⟩] : List ApiKey)).find? (fun key => key.secret == "s1") = none →
      (Lib.lookup_key [("t", [⟨"i", "n", "s1"⟩])] "t" "s1").2 = .notFound) ∧
    (Lib.lookup_key [("t", [⟨"i", "n", "s1"⟩])] "t" "s1").1 = [("t", [⟨"i", "n", "s1"⟩])]) ∧
    (([⟨"i", "n", "s1"⟩] : List ApiKey)).find? (fun key => key.secret == "s1")
      = some ⟨"i", "n", "s1"⟩ :=
  ⟨C5_lookup_contract [("t", [⟨"i", "n", "s1"⟩])] "t" "s1", by decide⟩

/-- C1: Tenant isolation.  For tenants `t1 ≠ t2`, every one of the five
operations performed with tenant `t2` (in either variant) leaves `t1`'s
partition unchanged, and the response returned to `t2` is unchanged when
`t1`'s partition is replaced by an arbitrary one (so it does not depend on
`t1`'s contents — in particular a key stored only under `t1` is never listed,
deleted, regenerated, or found by lookup on behalf of `t2`). -/
theorem C1_tenant_isolation (s : Store) (t1 t2 key_name gid gsec id sec : String)
    (hne : t1 ≠ t2) :
    (getTenant (Lib.create_key s t2 key_name gid gsec).1 t1 = getTenant s t1) ∧
    (getTenant (Lib.list_keys s t2).1 t1 = getTenant s t1) ∧
    (getTenant (Lib.delete_key s t2 id).1 t1 = getTenant s t1) ∧
    (getTenant (Lib.regenerate_key s t2 id gsec).1 t1 = getTenant s t1) ∧
    (getTenant (Lib.lookup_key s t2 sec).1 t1 = getTenant s t1) ∧
    (getTenant (Main.create_key s t2 key_name gid gsec).1 t1 = getTenant s t1) ∧
    (getTenant (Main.list_keys s t2).1 t1 = getTenant s t1) ∧
    (getTenant (Main.delete_key s t2 id).1 t1 = getTenant s t1) ∧
    (getTenant (Main.regenerate_key s t2 id gsec).1 t1 = getTenant s t1) ∧
    (getTenant (Main.lookup_key s t2 sec).1 t1 = getTenant s t1) ∧
    (∀ ks1, (Lib.create_key (setTenant s t1 ks1) t2 key_name gid gsec).2
      = (Lib.create_key s t2 key_name gid gsec).2) ∧
    (∀ ks1, (Lib.list_keys (setTenant s t1 ks1) t2).2 = (Lib.list_keys s t2).2) ∧
    (∀ ks1, (Lib.delete_key (setTenant s t1 ks1) t2 id).2 = (Lib.delete_key s t2 id).2) ∧
    (∀ ks1, (Lib.regenerate_key (setTenant s t1 ks1) t2 id gsec).2
      = (Lib.regenerate_key s t2 id gsec).2) ∧
    (∀ ks1, (Lib.lookup_key (setTenant s t1 ks1) t2 sec).2 = (Lib.lookup_key s t2 sec).2) ∧
    (∀ ks1, (Main.create_key (setTenant s t1 ks1) t2 key_name gid gsec).2
      = (Main.create_key s t2 key_name gid gsec).2) ∧
    (∀ ks1, (Main.list_keys (setTenant s t1 ks1) t2).2 = (Main.list_keys s t2).2) ∧
    (∀ ks1, (Main.delete_key (setTenant s t1 ks1) t2 id).2 = (Main.delete_key s t2 id).2) ∧
    (∀ ks1, (Main.regenerate_key (setTenant s t1 ks1) t2 id gsec).2
      = (Main.regenerate_key s t2 id gsec).2) ∧
    (∀ ks1, (Main.lookup_key (setTenant s t1 ks1) t2 sec).2 = (Main.lookup_key s t2 sec).2) := by
  have hgd : ∀ ks1, (getTenant (setTenant s t1 ks1) t2).getD [] = (getTenant s t2).getD [] :=
    fun ks1 => getD_setTenant_ne s t1 t2 ks1 hne
  refine ⟨?_, rfl, ?_, ?_, ?_, ?_, ?_, ?_, ?_, ?_,
    fun ks1 => rfl, ?_, ?_, ?_, ?_, fun ks1 => rfl, ?_, ?_, ?_, ?_⟩
  · rw [lib_create_eq, createStep_fst]
    exact getTenant_setTenant_ne s t2 t1 _ hne
  · rw [lib_delete_eq]
    exact getTenant_of_unchanged_or_set s _ t1 t2 hne (deleteStep_fst s t2 id)
  · rw [lib_regen_eq]
    exact getTenant_of_unchanged_or_set s _ t1 t2 hne (regenStep_fst s t2 id gsec)
  · rw [lib_lookup_eq, lookupStep_fst]
  · rw [main_create_eq, createStep_fst]
    exact getTenant_setTenant_ne s t2 t1 _ hne
  · rw [main_list_eq]
    exact getTenant_setTenant_ne s t2 t1 _ hne
  · rw [main_delete_eq]
    exact getTenant_of_unchanged_or_set s _ t1 t2 hne (deleteStep_fst s t2 id)
  · rw [main_regen_eq]
    exact getTenant_of_unchanged_or_set s _ t1 t2 hne (regenStep_fst s t2 id gsec)
  · rw [main_lookup_eq, lookupStep_fst]
  · intro ks1
    rw [lib_list_eq, lib_list_eq, hgd ks1]
  · intro ks1
    rw [lib_delete_eq, lib_delete_eq]
    exact deleteStep_snd_congr _ s t2 id (hgd ks1)
  · intro ks1
    rw [lib_regen_eq, lib_regen_eq]
    exact regenStep_snd_congr _ s t2 id gsec (hgd ks1)
  · intro ks1
    rw [lib_lookup_eq, lib_lookup_eq]
    exact lookupStep_snd_congr _ s t2 sec (hgd ks1)
  · intro ks1
    rw [main_list_eq, main_list_eq, hgd ks1]
  · intro ks1
    rw [main_delete_eq, main_delete_eq]
    exact deleteStep_snd_congr _ s t2 id (hgd ks1)
  · intro ks1
    rw [main_regen_eq, main_regen_eq]
    exact regenStep_snd_congr _ s t2 id gsec (hgd ks1)
  · intro ks1
    rw [main_lookup_eq, main_lookup_eq]
    exact lookupStep_snd_congr _ s t2 sec (hgd ks1)

/-- C1 witness: the isolation conjunction evaluated at tenants "a" ≠ "b" on a
store holding one key for "a". -/
theorem C1_tenant_isolation_witness :
    (getTenant (Lib.create_key [("a", [⟨"k1", "n1", "x1"⟩])] "b" "nm" "g" "gs").1 "a"
      = getTenant [("a", [⟨"k1", "n1", "x1"⟩])] "a") ∧
    (getTenant (Lib.list_keys [("a", [⟨"k1", "n1", "x1"⟩])] "b").1 "a"
      = getTenant [("a", [⟨"k1", "n1", "x1"⟩])] "a") ∧
    (getTenant (Lib.delete_key [("a", [⟨"k1", "n1", "x1"⟩])] "b" "k1").1 "a"
      = getTenant [("a", [⟨"k1", "n1", "x1"⟩])] "a") ∧
    (getTenant (Lib.regenerate_key [("a", [⟨"k1", "n1", "x1"⟩])] "b" "k1" "gs").1 "a"
      = getTenant [("a", [⟨"k1", "n1", "x1"⟩])] "a") ∧
    (getTenant (Lib.lookup_key [("a", [⟨"k1", "n1", "x1"⟩])] "b" "x1").1 "a"
      = getTenant [("a", [⟨"k1", "n1", "x1"⟩])] "a") ∧
    (getTenant (Main.create_key [("a", [⟨"k1", "n1", "x1"⟩])] "b" "nm" "g" "gs").1 "a"
      = getTenant [("a", [⟨"k1", "n1", "x1"⟩])] "a") ∧
    (getTenant (Main.list_keys [("a", [⟨"k1", "n1", "x1"⟩])] "b").1 "a"
      = getTenant [("a", [⟨"k1", "n1", "x1"⟩])] "a") ∧
    (getTenant (Main.delete_key [("a", [⟨"k1", "n1", "x1"⟩])] "b" "k1").1 "a"
      = getTenant [("a", [⟨"k1", "n1", "x1"⟩])] "a") ∧
    (getTenant (Main.regenerate_key [("a", [⟨"k1", "n1", "x1"⟩])] "b" "k1" "gs").1 "a"
      = getTenant [("a", [⟨"k1", "n1", "x1"⟩])] "a") ∧
    (getTenant (Main.lookup_key [("a", [⟨"k1", "n1", "x1"⟩])] "b" "x1").1 "a"
      = getTenant [("a", [⟨"k1", "n1", "x1"⟩])] "a") ∧
    (∀ ks1, (Lib.create_key (setTenant [("a", [⟨"k1", "n1", "x1"⟩])] "a" ks1) "b" "nm" "g" "gs").2
      = (Lib.create_key [("a", [⟨"k1", "n1", "x1"⟩])] "b" "nm" "g" "gs").2) ∧
    (∀ ks1, (Lib.list_keys (setTenant [("a", [⟨"k1", "n1", "x1"⟩])] "a" ks1) "b").2
      = (Lib.list_keys [("a", [⟨"k1", "n1", "x1"⟩])] "b").2) ∧
    (∀ ks1, (Lib.delete_key (setTenant [("a", [⟨"k1", "n1", "x1"⟩])] "a" ks1) "b" "k1").2
      = (Lib.delete_key [("a", [⟨"k1", "n1", "x1"⟩])] "b" "k1").2) ∧
    (∀ ks1, (Lib.regenerate_key (setTenant [("a", [⟨"k1", "n1", "x1"⟩])] "a" ks1) "b" "k1" "gs").2
      = (Lib.regenerate_key [("a", [⟨"k1", "n1", "x1"⟩])] "b" "k1" "gs").2) ∧
    (∀ ks1, (Lib.lookup_key (setTenant [("a", [⟨"k1", "n1", "x1"⟩])] "a" ks1) "b" "x1").2
      = (Lib.lookup_key [("a", [⟨"k1", "n1", "x1"⟩])] "b" "x1").2) ∧
    (∀ ks1, (Main.create_key (setTenant [("a", [⟨"k1", "n1", "x1"⟩])] "a" ks1) "b" "nm" "g" "gs").2
      = (Main.create_key [("a", [⟨"k1", "n1", "x1"⟩])] "b" "nm" "g" "gs").2) ∧
    (∀ ks1, (Main.list_keys (setTenant [("a", [⟨"k1", "n1", "x1"⟩])] "a" ks1) "b").2
      = (Main.list_keys [("a", [⟨"k1", "n1", "x1"⟩])] "b").2) ∧
    (∀ ks1, (Main.delete_key (setTenant [("a", [⟨"k1", "n1", "x1"⟩])] "a" ks1) "b" "k1").2
      = (Main.delete_key [("a", [⟨"k1", "n1", "x1"⟩])] "b" "k1").2) ∧
    (∀ ks1, (Main.regenerate_key (setTenant [("a", [⟨"k1", "n1", "x1"⟩])] "a" ks1) "b" "k1" "gs").2
      = (Main.regenerate_key [("a", [⟨"k1", "n1", "x1"⟩])] "b" "k1" "gs").2) ∧
    (∀ ks1, (Main.lookup_key (setTenant [("a", [⟨"k1", "n1", "x1"⟩])] "a" ks1) "b" "x1").2
      = (Main.lookup_key [("a", [⟨"k1", "n1", "x1"⟩])] "b" "x1").2) :=
  C1_tenant_isolation [("a", [⟨"k1", "n1", "x1"⟩])] "a" "b" "nm" "g" "gs" "k1" "x1" (by decide)

/-- C3: CreateKey returns the full key `⟨gid, name, gsec⟩` (non-empty id and
secret under the generator guarantees, name as supplied) and appends exactly
that key to the caller's partition; both variants behave identically.
Immediately afterwards, ListKeys returns the protected views of the partition,
and — provided the generated id is fresh for the tenant — the listing contains
exactly one entry with the new key's id, namely its protected view (the
`ProtectedApiKey` type has no secret field). -/
theorem C3_create_key (s : Store) (t key_name gid gsec : String)
    (hgid : gid ≠ "") (hgsec : gsec ≠ "")
    (hfresh : ∀ x ∈ (getTenant s t).getD [], x.id ≠ gid) :
    (Lib.create_key s t key_name gid gsec).2 = .keyFull ⟨gid, key_name, gsec⟩ ∧
    (⟨gid, key_name, gsec⟩ : ApiKey).id ≠ "" ∧
    (⟨gid, key_name, gsec⟩ : ApiKey).secret ≠ "" ∧
    (⟨gid, key_name, gsec⟩ : ApiKey).name = key_name ∧
    getTenant (Lib.create_key s t key_name gid gsec).1 t
      = some ((getTenant s t).getD [] ++ [⟨gid, key_name, gsec⟩]) ∧
    Main.create_key s t key_name gid gsec = Lib.create_key s t key_name gid gsec ∧
    (Lib.list_keys (Lib.create_key s t key_name gid gsec).1 t).2
      = .keyList (((getTenant s t).getD [] ++ [(⟨gid, key_name, gsec⟩ : ApiKey)]).map
          (fun key => (⟨key.id, key.name⟩ : ProtectedApiKey))) ∧
    (((getTenant s t).getD [] ++ [(⟨gid, key_name, gsec⟩ : ApiKey)]).map
        (fun key => (⟨key.id, key.name⟩ : ProtectedApiKey))).filter
      (fun e => e.id == gid) = [⟨gid, key_name⟩] := by
  have hset : getTenant (Lib.create_key s t key_name gid gsec).1 t
      = some ((getTenant s t).getD [] ++ [⟨gid, key_name, gsec⟩]) := by
    rw [lib_create_eq, createStep_fst]
    exact getTenant_setTenant_self s t _
  refine ⟨rfl, hgid, hgsec, rfl, hset, ?_, ?_, ?_⟩
  · rw [lib_create_eq, main_create_eq]
  · rw [lib_list_eq, hset, Option.getD_some]
  · have hnil : (((getTenant s t).getD []).map
        (fun key => (⟨key.id, key.name⟩ : ProtectedApiKey))).filter
        (fun e => e.id == gid) = [] := by
      rw [List.filter_eq_nil_iff]
      intro e he
      obtain ⟨x, hx, rfl⟩ := List.mem_map.mp he
      simpa using hfresh x hx
    rw [List.map_append, List.filter_append, hnil]
    simp

/-- C3 witness: create for tenant "t" on a store already holding one key with
a different id. -/
theorem C3_create_key_witness :
    ("g" : String) ≠ "" ∧ ("gs" : String) ≠ "" ∧
    ((Lib.create_key [("t", [⟨"k0", "n0", "x0"⟩])] "t" "nm" "g" "gs").2
        = .keyFull ⟨"g", "nm", "gs"⟩ ∧
      (⟨"g", "nm", "gs"⟩ : ApiKey).id ≠ "" ∧
      (⟨"g", "nm", "gs"⟩ : ApiKey).secret ≠ "" ∧
      (⟨"g", "nm", "gs"⟩ : ApiKey).name = "nm" ∧
      getTenant (Lib.create_key [("t", [⟨"k0", "n0", "x0"⟩])] "t" "nm" "g" "gs").1 "t"
        = some ((getTenant [("t", [⟨"k0", "n0", "x0"⟩])] "t").getD []
            ++ [⟨"g", "nm", "gs"⟩]) ∧
      Main.create_key [("t", [⟨"k0", "n0", "x0"⟩])] "t" "nm" "g" "gs"
        = Lib.create_key [("t", [⟨"k0", "n0", "x0"⟩])] "t" "nm" "g" "gs" ∧
      (Lib.list_keys (Lib.create_key [("t", [⟨"k0", "n0", "x0"⟩])] "t" "nm" "g" "gs").1 "t").2
        = .keyList (((getTenant [("t", [⟨"k0", "n0", "x0"⟩])] "t").getD []
            ++ [(⟨"g", "nm", "gs"⟩ : ApiKey)]).map
              (fun key => (⟨key.id, key.name⟩ : ProtectedApiKey))) ∧
      (((getTenant [("t", [⟨"k0", "n0", "x0"⟩])] "t").getD []
            ++ [(⟨"g", "nm", "gs"⟩ : ApiKey)]).map
          (fun key => (⟨key.id, key.name⟩ : ProtectedApiKey))).filter
        (fun e => e.id == "g") = [⟨"g", "nm"⟩]) :=
  ⟨by decide, by decide,
    C3_create_key [("t", [⟨"k0", "n0", "x0"⟩])] "t" "nm" "g" "gs"
      (by decide) (by decide) (by decide)⟩

theorem exists_iff_findIdx?_ne_none {α : Type} (p : α → Bool) (l : List α) :
    (∃ x ∈ l, p x = true) ↔ l.findIdx? p ≠ none := by
  constructor
  · rintro ⟨x, hx, hpx⟩ hnone
    rw [List.findIdx?_eq_none_iff] at hnone
    rw [hnone x hx] at hpx
    cases hpx
  · intro hne
    cases hf : l.findIdx? p with
    | none => exact absurd hf hne
    | some i =>
      obtain ⟨l1, x, l2, rfl, _, hpx, _, _⟩ := findIdx?_eq_some_decomp p _ i hf
      exact ⟨x, by simp, hpx⟩

/-- C4 counterexample: the claim promises that after a successful
`DeleteKey(T, id)` the listing never includes `id` again and a second delete
signals NotFound.  On a partition holding two keys that share the id "a"
(the storage `create` performs no duplicate-id check, so such a state is
expressible), the delete succeeds but removes only the first match: the
listing still contains id "a" and a second delete succeeds as well. -/
theorem C4_delete_counterexample :
    (Lib.delete_key [("t", [⟨"a", "n1", "s1"⟩, ⟨"a", "n2", "s2"⟩])] "t" "a").2
      = Response.noContent ∧
    (Lib.list_keys
        (Lib.delete_key [("t", [⟨"a", "n1", "s1"⟩, ⟨"a", "n2", "s2"⟩])] "t" "a").1 "t").2
      = Response.keyList [⟨"a", "n2"⟩] ∧
    (Lib.delete_key
        (Lib.delete_key [("t", [⟨"a", "n1", "s1"⟩, ⟨"a", "n2", "s2"⟩])] "t" "a").1 "t" "a").2
      = Response.noContent := by
  decide

/-- C4 (amended): provided at most one key of the caller's partition bears the
identifier `id`, DeleteKey succeeds iff a key with that id exists in the
partition and signals NotFound otherwise — including when the tenant has no
partition at all; after a successful delete the partition (hence the listing)
contains no key with that id, and deleting the same id again signals
NotFound.  Both variants' delete handlers are the same function. -/
theorem C4_delete_key (s : Store) (t id : String)
    (hone : ((getTenant s t).getD []).countP (fun x => x.id == id) ≤ 1) :
    ((Lib.delete_key s t id).2 = .noContent ↔ ∃ k ∈ (getTenant s t).getD [], k.id = id) ∧
    ((¬ ∃ k ∈ (getTenant s t).getD [], k.id = id) → (Lib.delete_key s t id).2 = .notFound) ∧
    (getTenant s t = none → (Lib.delete_key s t id).2 = .notFound) ∧
    (Main.delete_key s t id = Lib.delete_key s t id) ∧
    ((∃ k ∈ (getTenant s t).getD [], k.id = id) →
      (∀ x ∈ (getTenant (Lib.delete_key s t id).1 t).getD [], x.id ≠ id) ∧
      (Lib.list_keys (Lib.delete_key s t id).1 t).2
        = .keyList (((getTenant (Lib.delete_key s t id).1 t).getD []).map
            (fun key => (⟨key.id, key.name⟩ : ProtectedApiKey))) ∧
      (∀ e ∈ ((getTenant (Lib.delete_key s t id).1 t).getD []).map
          (fun key => (⟨key.id, key.name⟩ : ProtectedApiKey)), e.id ≠ id) ∧
      (Lib.delete_key (Lib.delete_key s t id).1 t id).2 = .notFound) := by
  have hex_iff : (∃ k ∈ (getTenant s t).getD [], k.id = id)
      ↔ ((getTenant s t).getD []).findIdx? (fun x => x.id == id) ≠ none := by
    rw [← exists_iff_findIdx?_ne_none]
    constructor
    · rintro ⟨k, hk, hkid⟩
      exact ⟨k, hk, by simpa using hkid⟩
    · rintro ⟨k, hk, hkid⟩
      exact ⟨k, hk, by simpa using hkid⟩
  refine ⟨?_, ?_, ?_, by rw [lib_delete_eq, main_delete_eq], ?_⟩
  · rw [lib_delete_eq, hex_iff]
    unfold deleteStep
    cases hf : ((getTenant s t).getD []).findIdx? (fun x => x.id == id) with
    | none => simp [hf]
    | some i => simp [hf]
  · intro hnone
    rw [hex_iff] at hnone
    have hf : ((getTenant s t).getD []).findIdx? (fun x => x.id == id) = none :=
      not_not.mp hnone
    rw [lib_delete_eq]
    unfold deleteStep
    rw [hf]
  · intro hg
    rw [lib_delete_eq]
    unfold deleteStep
    rw [hg]
    rfl
  · intro hex
    obtain hf := hex_iff.mp hex
    cases hfi : ((getTenant s t).getD []).findIdx? (fun x => x.id == id) with
    | none => exact absurd hfi hf
    | some i =>
      obtain ⟨l1, x, l2, hdec, hlen, hpx, hpre, her⟩ :=
        findIdx?_eq_some_decomp (fun x : ApiKey => x.id == id) _ i hfi
      have hres : (Lib.delete_key s t id).1
          = setTenant s t (((getTenant s t).getD []).eraseIdx i) := by
        rw [lib_delete_eq]
        unfold deleteStep
        rw [hfi]
      have hget : (getTenant (Lib.delete_key s t id).1 t).getD [] = l1 ++ l2 := by
        rw [hres, getTenant_setTenant_self, Option.getD_some, her]
      have hcount : ((getTenant s t).getD []).countP (fun x => x.id == id) =
          l1.countP (fun x => x.id == id) + l2.countP (fun x => x.id == id) + 1 := by
        rw [hdec, List.countP_append, List.countP_cons, if_pos hpx]
        omega
      have hl2 : ∀ y ∈ l2, (y.id == id) = false := by
        intro y hy
        have : l2.countP (fun x => x.id == id) = 0 := by omega
        have := List.countP_eq_zero.mp this y hy
        simpa using this
      have hall : ∀ y ∈ l1 ++ l2, y.id ≠ id := by
        intro y hy
        rcases List.mem_append.mp hy with hy1 | hy2
        · simpa using hpre y hy1
        · simpa using hl2 y hy2
      refine ⟨?_, ?_, ?_, ?_⟩
      · intro y hy
        exact hall y (by rwa [hget] at hy)
      · rw [lib_list_eq]
      · intro e he
        rw [hget] at he
        obtain ⟨y, hy, rfl⟩ := List.mem_map.mp he
        exact hall y hy
      · rw [lib_delete_eq]
        unfold deleteStep
        have : ((getTenant (Lib.delete_key s t id).1 t).getD []).findIdx?
            (fun x => x.id == id) = none := by
          rw [List.findIdx?_eq_none_iff, hget]
          intro y hy
          simpa using hall y hy
        rw [this]

/-- C4 witness: a one-key partition, deleting the present id "a". -/
theorem C4_delete_key_witness :
    (((getTenant [("t", [⟨"a", "n", "s"⟩])] "t").getD []).countP
        (fun x => x.id == "a") ≤ 1) ∧
    (((Lib.delete_key [("t", [⟨"a", "n", "s"⟩])] "t" "a").2 = .noContent
        ↔ ∃ k ∈ (getTenant [("t", [⟨"a", "n", "s"⟩])] "t").getD [], k.id = "a") ∧
      ((¬ ∃ k ∈ (getTenant [("t", [⟨"a", "n", "s"⟩])] "t").getD [], k.id = "a") →
        (Lib.delete_key [("t", [⟨"a", "n", "s"⟩])] "t" "a").2 = .notFound) ∧
      (getTenant [("t", [⟨"a", "n", "s"⟩])] "t" = none →
        (Lib.delete_key [("t", [⟨"a", "n", "s"⟩])] "t" "a").2 = .notFound) ∧
      (Main.delete_key [("t", [⟨"a", "n", "s"⟩])] "t" "a"
        = Lib.delete_key [("t", [⟨"a", "n", "s"⟩])] "t" "a") ∧
      ((∃ k ∈ (getTenant [("t", [⟨"a", "n", "s"⟩])] "t").getD [], k.id = "a") →
        (∀ x ∈ (getTenant (Lib.delete_key [("t", [⟨"a", "n", "s"⟩])] "t" "a").1 "t").getD [],
          x.id ≠ "a") ∧
        (Lib.list_keys (Lib.delete_key [("t", [⟨"a", "n", "s"⟩])] "t" "a").1 "t").2
          = .keyList (((getTenant (Lib.delete_key [("t", [⟨"a", "n", "s"⟩])] "t" "a").1
              "t").getD []).map (fun key => (⟨key.id, key.name⟩ : ProtectedApiKey))) ∧
        (∀ e ∈ ((getTenant (Lib.delete_key [("t", [⟨"a", "n", "s"⟩])] "t" "a").1
            "t").getD []).map (fun key => (⟨key.id, key.name⟩ : ProtectedApiKey)),
          e.id ≠ "a") ∧
        (Lib.delete_key (Lib.delete_key [("t", [⟨"a", "n", "s"⟩])] "t" "a").1 "t" "a").2
          = .notFound)) :=
  ⟨by decide, C4_delete_key [("t", [⟨"a", "n", "s"⟩])] "t" "a" (by decide)⟩

/-- C2: RegenerateKey on a present id returns the stored key's id and name with
the freshly generated secret, persists exactly that key in place of the old
one (both variants compute the identical result), and — assuming the
generated secret differs from every secret stored for the tenant and the old
secret belongs to no other key of the tenant — a subsequent
`LookupKey(T, old_secret)` signals NotFound while `LookupKey(T, new_secret)`
returns the regenerated key's protected view. -/
theorem C2_regenerate_key (s : Store) (t id gsec : String) (ks : List ApiKey) (k : ApiKey)
    (hks : getTenant s t = some ks)
    (hfind : ks.find? (fun key => key.id == id) = some k)
    (hfresh : ∀ x ∈ ks, x.secret ≠ gsec)
    (hone : ks.countP (fun x => x.secret == k.secret) = 1) :
    (Lib.regenerate_key s t id gsec).2 = .keyFull ⟨k.id, k.name, gsec⟩ ∧
    k.id = id ∧
    getTenant (Lib.regenerate_key s t id gsec).1 t
      = some (replaceFirst (fun x => x.id == id) ⟨k.id, k.name, gsec⟩ ks) ∧
    Main.regenerate_key s t id gsec = Lib.regenerate_key s t id gsec ∧
    (Lib.lookup_key (Lib.regenerate_key s t id gsec).1 t k.secret).2 = .notFound ∧
    (Lib.lookup_key (Lib.regenerate_key s t id gsec).1 t gsec).2
      = .protectedKey ⟨k.id, k.name⟩ := by
  have hgetD : (getTenant s t).getD [] = ks := by rw [hks]; rfl
  have hkmem : k ∈ ks := List.mem_of_find?_eq_some hfind
  have hkid : k.id = id := by simpa using List.find?_some hfind
  have hres : (Lib.regenerate_key s t id gsec).1
      = setTenant s t (replaceFirst (fun x => x.id == id) ⟨k.id, k.name, gsec⟩ ks) := by
    rw [lib_regen_eq]
    unfold regenStep
    rw [hgetD, hfind]
  have hresp : (Lib.regenerate_key s t id gsec).2 = .keyFull ⟨k.id, k.name, gsec⟩ := by
    rw [lib_regen_eq]
    unfold regenStep
    rw [hgetD, hfind]
  obtain ⟨l1, l2, hdec, hpre⟩ := find?_eq_some_decomp (fun key => key.id == id) ks k hfind
  have hrepl : replaceFirst (fun x => x.id == id) ⟨k.id, k.name, gsec⟩ ks
      = l1 ++ ⟨k.id, k.name, gsec⟩ :: l2 := by
    rw [hdec]
    exact replaceFirst_append _ _ k l1 l2 hpre (by simpa using hkid)
  have hget2 : (getTenant (Lib.regenerate_key s t id gsec).1 t).getD []
      = l1 ++ (⟨k.id, k.name, gsec⟩ : ApiKey) :: l2 := by
    rw [hres, getTenant_setTenant_self, Option.getD_some, hrepl]
  have hcount0 : l1.countP (fun x => x.secret == k.secret) = 0 ∧
      l2.countP (fun x => x.secret == k.secret) = 0 := by
    rw [hdec, List.countP_append, List.countP_cons, if_pos (by simp)] at hone
    omega
  have hl1sec : ∀ y ∈ l1, (y.secret == k.secret) = false := by
    intro y hy
    simpa using List.countP_eq_zero.mp hcount0.1 y hy
  have hl2sec : ∀ y ∈ l2, (y.secret == k.secret) = false := by
    intro y hy
    simpa using List.countP_eq_zero.mp hcount0.2 y hy
  have hmeml1 : ∀ y ∈ l1, y ∈ ks := by
    intro y hy
    rw [hdec]
    exact List.mem_append.mpr (Or.inl hy)
  refine ⟨hresp, hkid, ?_, ?_, ?_, ?_⟩
  · rw [hres]
    exact getTenant_setTenant_self s t _
  · rw [lib_regen_eq, main_regen_eq]
  · rw [lib_lookup_eq]
    unfold lookupStep
    have hnone : (l1 ++ (⟨k.id, k.name, gsec⟩ : ApiKey) :: l2).find?
        (fun key => key.secret == k.secret) = none := by
      rw [List.find?_eq_none]
      intro y hy
      rcases List.mem_append.mp hy with hy1 | hy2
      · simp [hl1sec y hy1]
      · rcases List.mem_cons.mp hy2 with rfl | hy3
        · have : k.secret ≠ gsec := hfresh k hkmem
          simpa using fun hc => this (by rw [hc])
        · simp [hl2sec y hy3]
    rw [hget2, hnone]
  · rw [lib_lookup_eq]
    unfold lookupStep
    have hsomeval : (l1 ++ (⟨k.id, k.name, gsec⟩ : ApiKey) :: l2).find?
        (fun key => key.secret == gsec) = some ⟨k.id, k.name, gsec⟩ := by
      rw [List.find?_append]
      have h1 : l1.find? (fun key => key.secret == gsec) = none := by
        rw [List.find?_eq_none]
        intro y hy
        simpa using hfresh y (hmeml1 y hy)
      rw [h1, List.find?_cons]
      simp
    rw [hget2, hsomeval]

/-- C2 witness: a two-key partition for tenant "t"; regenerate key "k1"
(old secret "x1") with fresh secret "z". -/
theorem C2_regenerate_key_witness :
    ((Lib.regenerate_key [("t", [⟨"k1", "n1", "x1"⟩, ⟨"k2", "n2", "x2"⟩])] "t" "k1" "z").2
        = .keyFull ⟨"k1", "n1", "z"⟩ ∧
      (⟨"k1", "n1", "x1"⟩ : ApiKey).id = "k1" ∧
      getTenant (Lib.regenerate_key [("t", [⟨"k1", "n1", "x1"⟩, ⟨"k2", "n2", "x2"⟩])]
          "t" "k1" "z").1 "t"
        = some (replaceFirst (fun x => x.id == "k1") ⟨"k1", "n1", "z"⟩
            [⟨"k1", "n1", "x1"⟩, ⟨"k2", "n2", "x2"⟩]) ∧
      Main.regenerate_key [("t", [⟨"k1", "n1", "x1"⟩, ⟨"k2", "n2", "x2"⟩])] "t" "k1" "z"
        = Lib.regenerate_key [("t", [⟨"k1", "n1", "x1"⟩, ⟨"k2", "n2", "x2"⟩])] "t" "k1" "z" ∧
      (Lib.lookup_key (Lib.regenerate_key [("t", [⟨"k1", "n1", "x1"⟩, ⟨"k2", "n2", "x2"⟩])]
          "t" "k1" "z").1 "t" (⟨"k1", "n1", "x1"⟩ : ApiKey).secret).2 = .notFound ∧
      (Lib.lookup_key (Lib.regenerate_key [("t", [⟨"k1", "n1", "x1"⟩, ⟨"k2", "n2", "x2"⟩])]
          "t" "k1" "z").1 "t" "z").2 = .protectedKey ⟨"k1", "n1"⟩) :=
  C2_regenerate_key [("t", [⟨"k1", "n1", "x1"⟩, ⟨"k2", "n2", "x2"⟩])] "t" "k1" "z"
    [⟨"k1", "n1", "x1"⟩, ⟨"k2", "n2", "x2"⟩] ⟨"k1", "n1", "x1"⟩
    (by decide) (by decide) (by decide) (by decide)

/-! ## Request sequences

An `Op` is one request to the service, with the nondeterministically generated
ids/secrets of that request made explicit. -/

inductive Op where
  | createOp : (tenant key_name gen_id gen_secret : String) → Op
  | listOp : (tenant : String) → Op
  | deleteOp : (tenant id : String) → Op
  | regenOp : (tenant id gen_secret : String) → Op
  | lookupOp : (tenant secret : String) → Op
deriving DecidableEq, Repr

/-- Dispatch one request to the `src/lib.rs` handlers over `InMemoryStorage`. -/
def Lib.applyOp (s : Store) : Op → Store × Response
  | .createOp t n gid gsec => Lib.create_key s t n gid gsec
  | .listOp t => Lib.list_keys s t
  | .deleteOp t id => Lib.delete_key s t id
  | .regenOp t id gsec => Lib.regenerate_key s t id gsec
  | .lookupOp t sec => Lib.lookup_key s t sec

/-- Dispatch one request to the `src/main.rs` handlers. -/
def Main.applyOp (s : Store) : Op → Store × Response
  | .createOp t n gid gsec => Main.create_key s t n gid gsec
  | .listOp t => Main.list_keys s t
  | .deleteOp t id => Main.delete_key s t id
  | .regenOp t id gsec => Main.regenerate_key s t id gsec
  | .lookupOp t sec => Main.lookup_key s t sec

/-- Run a sequence of requests through the `src/lib.rs` handlers, collecting
the responses in order. -/
def Lib.run (s : Store) : List Op → Store × List Response
  | [] => (s, [])
  | op :: ops =>
    let r := Lib.applyOp s op
    let rest := Lib.run r.1 ops
    (rest.1, r.2 :: rest.2)

/-- Run a sequence of requests through the `src/main.rs` handlers. -/
def Main.run (s : Store) : List Op → Store × List Response
  | [] => (s, [])
  | op :: ops =>
    let r := Main.applyOp s op
    let rest := Main.run r.1 ops
    (rest.1, r.2 :: rest.2)

theorem deleteStep_fst_of_notFound (s : Store) (t id : String)
    (h : (deleteStep s t id).2 = .notFound) : (deleteStep s t id).1 = s := by
  cases hf : ((getTenant s t).getD []).findIdx? (fun key => key.id == id) with
  | none =>
    unfold deleteStep
    rw [hf]
  | some i =>
    unfold deleteStep at h
    rw [hf] at h
    simp at h

theorem regenStep_fst_of_notFound (s : Store) (t id gsec : String)
    (h : (regenStep s t id gsec).2 = .notFound) : (regenStep s t id gsec).1 = s := by
  cases hf : ((getTenant s t).getD []).find? (fun key => key.id == id) with
  | none =>
    unfold regenStep
    rw [hf]
  | some k =>
    unfold regenStep at h
    rw [hf] at h
    simp at h

/-- C9: Error atomicity.  Whenever an operation (in either variant) answers
`notFound`, the entire store — every tenant's partition — is exactly what it
was before the operation. -/
theorem C9_notFound_is_atomic (s : Store) (op : Op) :
    ((Lib.applyOp s op).2 = .notFound → (Lib.applyOp s op).1 = s) ∧
    ((Main.applyOp s op).2 = .notFound → (Main.applyOp s op).1 = s) := by
  cases op with
  | createOp t n gid gsec =>
    constructor <;> intro h
    · simp only [Lib.applyOp, lib_create_eq] at h
      exact absurd h (by simp [createStep])
    · simp only [Main.applyOp, main_create_eq] at h
      exact absurd h (by simp [createStep])
  | listOp t =>
    constructor <;> intro h
    · rw [Lib.applyOp, lib_list_eq] at h
      simp at h
    · rw [Main.applyOp, main_list_eq] at h
      simp at h
  | deleteOp t id =>
    constructor <;> intro h
    · rw [Lib.applyOp, lib_delete_eq] at h ⊢
      exact deleteStep_fst_of_notFound s t id h
    · rw [Main.applyOp, main_delete_eq] at h ⊢
      exact deleteStep_fst_of_notFound s t id h
  | regenOp t id gsec =>
    constructor <;> intro h
    · rw [Lib.applyOp, lib_regen_eq] at h ⊢
      exact regenStep_fst_of_notFound s t id gsec h
    · rw [Main.applyOp, main_regen_eq] at h ⊢
      exact regenStep_fst_of_notFound s t id gsec h
  | lookupOp t sec =>
    constructor <;> intro h
    · rw [Lib.applyOp, lib_lookup_eq]
      exact lookupStep_fst s t sec
    · rw [Main.applyOp, main_lookup_eq]
      exact lookupStep_fst s t sec

/-- C9 witness: deleting a missing id on the empty store answers `notFound`
and indeed leaves the store unchanged. -/
theorem C9_notFound_is_atomic_witness :
    ((Lib.applyOp [] (.deleteOp "t" "a")).2 = .notFound →
      (Lib.applyOp [] (.deleteOp "t" "a")).1 = []) ∧
    ((Main.applyOp [] (.deleteOp "t" "a")).2 = .notFound →
      (Main.applyOp [] (.deleteOp "t" "a")).1 = []) :=
  C9_notFound_is_atomic [] (.deleteOp "t" "a")

/-! ## Reachability and the per-tenant id-uniqueness invariant -/

/-- The id-generation guarantee at a create request: the generated id differs
from every id already stored for the addressed tenant (vacuous for the other
four operations, which generate no id). -/
def freshIdOk (s : Store) : Op → Prop
  | .createOp t _ gid _ => ∀ x ∈ (getTenant s t).getD [], x.id ≠ gid
  | _ => True

/-- Stores reachable from the empty store by request sequences whose generated
ids satisfy `freshIdOk`. -/
inductive ReachableLib : Store → Prop
  | empty : ReachableLib []
  | step {s : Store} {op : Op} : ReachableLib s → freshIdOk s op →
      ReachableLib (Lib.applyOp s op).1

/-- Within each tenant's partition, the key ids are pairwise distinct. -/
def TenantIdsNodup (s : Store) : Prop :=
  ∀ t : String, (((getTenant s t).getD []).map ApiKey.id).Nodup

theorem tenantIdsNodup_setTenant (s : Store) (t : String) (ks : List ApiKey)
    (h : TenantIdsNodup s) (hks : (ks.map ApiKey.id).Nodup) :
    TenantIdsNodup (setTenant s t ks) := by
  intro t2
  by_cases he : t2 = t
  · subst he
    rw [getTenant_setTenant_self, Option.getD_some]
    exact hks
  · rw [getTenant_setTenant_ne s t t2 ks he]
    exact h t2

theorem tenantIdsNodup_createStep (s : Store) (t n gid gsec : String)
    (h : TenantIdsNodup s) (hfresh : ∀ x ∈ (getTenant s t).getD [], x.id ≠ gid) :
    TenantIdsNodup (createStep s t n gid gsec).1 := by
  rw [createStep_fst]
  apply tenantIdsNodup_setTenant s t _ h
  rw [List.map_append, List.nodup_append]
  refine ⟨h t, by simp, ?_⟩
  intro a ha hb
  obtain ⟨x, hx, rfl⟩ := List.mem_map.mp ha
  have : x.id = gid := by simpa using hb
  exact hfresh x hx this

theorem tenantIdsNodup_deleteStep (s : Store) (t id : String)
    (h : TenantIdsNodup s) : TenantIdsNodup (deleteStep s t id).1 := by
  unfold deleteStep
  cases hf : ((getTenant s t).getD []).findIdx? (fun key => key.id == id) with
  | none => exact h
  | some i =>
    show TenantIdsNodup (setTenant s t (((getTenant s t).getD []).eraseIdx i))
    apply tenantIdsNodup_setTenant s t _ h
    exact List.Nodup.sublist (List.Sublist.map _ (List.eraseIdx_sublist _ i)) (h t)

theorem tenantIdsNodup_regenStep (s : Store) (t id gsec : String)
    (h : TenantIdsNodup s) : TenantIdsNodup (regenStep s t id gsec).1 := by
  unfold regenStep
  cases hf : ((getTenant s t).getD []).find? (fun key => key.id == id) with
  | none => exact h
  | some k =>
    show TenantIdsNodup (setTenant s t (replaceFirst (fun x => x.id == id)
      { k with secret := gsec } ((getTenant s t).getD [])))
    apply tenantIdsNodup_setTenant s t _ h
    rw [map_replaceFirst]
    · exact h t
    · intro x hx
      have hxid : x.id = id := by simpa using hx
      have hkid : k.id = id := by simpa using List.find?_some hf
      show x.id = ({ k with secret := gsec } : ApiKey).id
      rw [hxid]
      exact hkid.symm

/-- C6: In every state reachable from the empty store by the five lifecycle
operations — assuming each generated id at creation is fresh for its tenant —
the key ids within each tenant's partition are pairwise distinct.  The storage
`create_key` itself performs no duplicate-id check: it succeeds (`Ok`) on
every input store whatsoever, so the invariant rests entirely on generation. -/
theorem C6_tenant_id_uniqueness (s : Store) (h : ReachableLib s) :
    TenantIdsNodup s ∧
    (∀ (s2 : Store) (u : String) (k : ApiKey),
      (InMemoryStorage.create_key s2 u k).2 = Except.ok ()) := by
  refine ⟨?_, fun s2 u k => rfl⟩
  induction h with
  | empty =>
    intro t
    simp [getTenant]
  | step hr hok ih =>
    rename_i s1 op
    cases op with
    | createOp t n gid gsec =>
      rw [Lib.applyOp, lib_create_eq]
      exact tenantIdsNodup_createStep s1 t n gid gsec ih hok
    | listOp t =>
      rw [Lib.applyOp, lib_list_eq]
      exact ih
    | deleteOp t id =>
      rw [Lib.applyOp, lib_delete_eq]
      exact tenantIdsNodup_deleteStep s1 t id ih
    | regenOp t id gsec =>
      rw [Lib.applyOp, lib_regen_eq]
      exact tenantIdsNodup_regenStep s1 t id gsec ih
    | lookupOp t sec =>
      rw [Lib.applyOp, lib_lookup_eq, lookupStep_fst]
      exact ih

/-- C6 witness: two creates with distinct fresh ids from the empty store. -/
theorem C6_tenant_id_uniqueness_witness :
    TenantIdsNodup (Lib.applyOp (Lib.applyOp [] (.createOp "t" "n1" "i1" "x1")).1
        (.createOp "t" "n2" "i2" "x2")).1 ∧
    (∀ (s2 : Store) (u : String) (k : ApiKey),
      (InMemoryStorage.create_key s2 u k).2 = Except.ok ()) :=
  C6_tenant_id_uniqueness _
    (ReachableLib.step
      (ReachableLib.step ReachableLib.empty
        (show ∀ x ∈ (getTenant [] "t").getD [], x.id ≠ "i1" by decide))
      (show ∀ x ∈ (getTenant (Lib.applyOp [] (.createOp "t" "n1" "i1" "x1")).1 "t").getD [],
          x.id ≠ "i2" by decide))

/-! ## Variant equivalence -/

/-- Two stores agree when every tenant's effective partition (absent partitions
reading as empty) is the same — "the same keys per tenant, differing at most
in materialised empty partitions". -/
def StoresAgree (s1 s2 : Store) : Prop :=
  ∀ t : String, (getTenant s1 t).getD [] = (getTenant s2 t).getD []

theorem getD_setTenant_self (s : Store) (t : String) (ks : List ApiKey) :
    (getTenant (setTenant s t ks) t).getD [] = ks := by
  rw [getTenant_setTenant_self, Option.getD_some]

theorem storesAgree_setTenant (s1 s2 : Store) (h : StoresAgree s1 s2)
    (t : String) (ks : List ApiKey) :
    StoresAgree (setTenant s1 t ks) (setTenant s2 t ks) := by
  intro t2
  by_cases he : t2 = t
  · subst he
    rw [getD_setTenant_self, getD_setTenant_self]
  · rw [getTenant_setTenant_ne s1 t t2 ks he, getTenant_setTenant_ne s2 t t2 ks he]
    exact h t2

theorem storesAgree_setTenant_right (s1 s2 : Store) (h : StoresAgree s1 s2) (t : String) :
    StoresAgree s1 (setTenant s2 t ((getTenant s2 t).getD [])) := by
  intro t2
  by_cases he : t2 = t
  · subst he
    rw [getD_setTenant_self]
    exact h t2
  · rw [getTenant_setTenant_ne s2 t t2 _ he]
    exact h t2

/-- One request preserves agreement and yields identical responses. -/
theorem applyOp_agree (s1 s2 : Store) (op : Op) (h : StoresAgree s1 s2) :
    (Lib.applyOp s1 op).2 = (Main.applyOp s2 op).2 ∧
    StoresAgree (Lib.applyOp s1 op).1 (Main.applyOp s2 op).1 := by
  cases op with
  | createOp t n gid gsec =>
    rw [Lib.applyOp, Main.applyOp, lib_create_eq, main_create_eq]
    refine ⟨rfl, ?_⟩
    rw [createStep_fst, createStep_fst, h t]
    exact storesAgree_setTenant s1 s2 h t _
  | listOp t =>
    rw [Lib.applyOp, Main.applyOp, lib_list_eq, main_list_eq]
    refine ⟨?_, ?_⟩
    · show Response.keyList _ = Response.keyList _
      rw [h t]
    · show StoresAgree s1 (setTenant s2 t ((getTenant s2 t).getD []))
      exact storesAgree_setTenant_right s1 s2 h t
  | deleteOp t id =>
    rw [Lib.applyOp, Main.applyOp, lib_delete_eq, main_delete_eq]
    unfold deleteStep
    rw [h t]
    cases hf : ((getTenant s2 t).getD []).findIdx? (fun key => key.id == id) with
    | none => exact ⟨rfl, h⟩
    | some i => exact ⟨rfl, storesAgree_setTenant s1 s2 h t _⟩
  | regenOp t id gsec =>
    rw [Lib.applyOp, Main.applyOp, lib_regen_eq, main_regen_eq]
    unfold regenStep
    rw [h t]
    cases hf : ((getTenant s2 t).getD []).find? (fun key => key.id == id) with
    | none => exact ⟨rfl, h⟩
    | some k => exact ⟨rfl, storesAgree_setTenant s1 s2 h t _⟩
  | lookupOp t sec =>
    rw [Lib.applyOp, Main.applyOp, lib_lookup_eq, main_lookup_eq]
    unfold lookupStep
    rw [h t]
    cases hf : ((getTenant s2 t).getD []).find? (fun key => key.secret == sec) with
    | none => exact ⟨rfl, h⟩
    | some k => exact ⟨rfl, h⟩

theorem run_agree (ops : List Op) (s1 s2 : Store) (h : StoresAgree s1 s2) :
    (Lib.run s1 ops).2 = (Main.run s2 ops).2 ∧
    StoresAgree (Lib.run s1 ops).1 (Main.run s2 ops).1 := by
  induction ops generalizing s1 s2 with
  | nil => exact ⟨rfl, h⟩
  | cons op ops ih =>
    obtain ⟨hresp, hag⟩ := applyOp_agree s1 s2 op h
    obtain ⟨hresp2, hag2⟩ := ih (Lib.applyOp s1 op).1 (Main.applyOp s2 op).1 hag
    unfold Lib.run Main.run
    refine ⟨?_, hag2⟩
    dsimp only
    rw [hresp, hresp2]

/-- C10: Variant equivalence.  Running any request sequence (with identical
generated ids/secrets at corresponding steps) from the empty store through the
`src/lib.rs` composition and through the `src/main.rs` handlers produces the
identical list of responses, and the final stores hold the same keys for every
tenant — differing at most in the empty partitions `main.rs`'s `list_keys`
materialises. -/
theorem C10_variant_equivalence (ops : List Op) :
    (Lib.run [] ops).2 = (Main.run [] ops).2 ∧
    StoresAgree (Lib.run [] ops).1 (Main.run [] ops).1 :=
  run_agree ops [] [] (fun _ => rfl)
